import Mathlib

/-!
Verification of the textual diagnostic renderer declared in
include/clang/Frontend/TextDiagnostic.h.

The repository provides only the class declaration (the header); the bodies of
the member functions (TextDiagnostic.cpp) are not part of the source tree, so
the behaviour of each operation is modelled from the specification document,
component by component.  Lines, annotation strings and messages are lists of
characters; machine state is passed explicitly.
-/

/-- Modelled from the spec: resolved logical position (file identity, 1-based
line, 1-based column) produced by the external location service for a
SourceLocation.  The implementation file that consumes it is missing from the
tree. -/
structure LogicalPos where
  file : Nat
  line : Nat
  col : Nat
deriving DecidableEq

/-- Modelled from the spec: a diagnostic location together with everything the
external location service can resolve about it.  `resolved` is `none` for an
unresolvable location, `lineText` is `none` when the physical line's text is
unavailable, `includeStack` lists the enclosing include frames (empty when the
location has no include ancestry) and `expansionFrames` lists the macro or
text-substitution frames (empty for a direct spelling).  The real resolution
code lives outside this repository. -/
structure Loc where
  resolved : Option LogicalPos
  lineText : Option (List Char)
  includeStack : List Nat
  expansionFrames : List Nat
deriving DecidableEq

/-- Severity levels of DiagnosticsEngine, ordered as in the spec data model. -/
inductive DiagLevel where
  | ignored
  | note
  | remark
  | warning
  | error
  | fatal
deriving DecidableEq

/-- Modelled from the spec: one diagnostic as handed to Emit (location,
severity, message, highlight ranges, repair hints).  Ranges are already
clipped per-line to 1-based half-open column intervals, and hints are
insertion hints given as (1-based anchor column, text). -/
structure Diag where
  loc : Loc
  level : DiagLevel
  message : List Char
  ranges : List (Nat × Nat)
  hints : List (Nat × List Char)
deriving DecidableEq

/-- Modelled from the spec: the presentation options consumed by the renderer
(tab stop width, wrap column with 0 disabling wrapping, macro backtrace depth
limit with 0 disabling elision). -/
structure DiagOpts where
  tabStop : Nat
  wrapColumn : Nat
  backtraceLimit : Nat
deriving DecidableEq

/-- Render state of the TextDiagnostic object: the fields LastLoc,
LastIncludeLoc and LastLevel of the class declaration, carried across
successive Emit calls.  An invalid SourceLocation is modelled as `none`. -/
structure RenderState where
  lastLoc : Option LogicalPos
  lastIncludeLoc : Option (List Nat)
  lastLevel : DiagLevel
deriving DecidableEq

/-- One element written to the output sink, abstracted per rendered line. -/
inductive OutItem where
  | includeLine (frame : Nat)
  | locHeader (file line col : Nat)
  | levelTag (level : DiagLevel)
  | messageText (text : List Char)
  | noteFrame (frame : Nat)
  | elisionLine (skipped : Nat)
  | sourceLine (text : List Char)
  | caretLine (text : List Char)
  | fixitLine (text : List Char)
deriving DecidableEq

def isIncludeLine : OutItem → Bool
  | .includeLine _ => true
  | _ => false

def isNoteFrame : OutItem → Bool
  | .noteFrame _ => true
  | _ => false

def isElisionLine : OutItem → Bool
  | .elisionLine _ => true
  | _ => false

def isSourceLine : OutItem → Bool
  | .sourceLine _ => true
  | _ => false

def isCaretLine : OutItem → Bool
  | .caretLine _ => true
  | _ => false

/-- Modelled from the spec: core of HighlightRange, whose body in
TextDiagnostic.cpp is missing from the tree.  Walking the caret line with a
running 1-based column counter, every column in the half-open interval
[startCol, stopCol) is overwritten with the underline character, all other
columns keep their previous contents. -/
def highlightAux (startCol stopCol : Nat) : Nat → List Char → List Char
  | _, [] => []
  | col, ch :: rest =>
    (if startCol ≤ col ∧ col < stopCol then '~' else ch)
      :: highlightAux startCol stopCol (col + 1) rest

/-- Modelled from the spec: HighlightRange for one range already clipped to
the current line, expressed on the caret line (same length as the source
line). -/
def HighlightRange (startCol stopCol : Nat) (caretLine : List Char) : List Char :=
  highlightAux startCol stopCol 1 caretLine

/-- Modelled from the spec: highlighting of all ranges of a diagnostic,
applied in the order supplied by the caller. -/
def highlightRanges (ranges : List (Nat × Nat)) (caretLine : List Char) : List Char :=
  ranges.foldl (fun cl r => HighlightRange r.1 r.2 cl) caretLine

/-- Modelled from the spec: caret placement walking the line with a running
1-based column counter; the primary caret column is overwritten with the caret
character, overriding any underline there. -/
def placeCaretAux (caretCol : Nat) : Nat → List Char → List Char
  | _, [] => []
  | col, ch :: rest =>
    (if col = caretCol then '^' else ch) :: placeCaretAux caretCol (col + 1) rest

/-- Modelled from the spec: placement of the diagnostic's primary caret on the
caret line, after all ranges have been underlined. -/
def placeCaret (caretCol : Nat) (caretLine : List Char) : List Char :=
  placeCaretAux caretCol 1 caretLine

/-- Modelled from the spec: core of ExpandTabs, whose body in
TextDiagnostic.cpp is missing from the tree.  The source line is scanned with
a running 0-based column counter; each tab is replaced by spaces advancing the
column to the next multiple of the tab stop, and a substitution of the same
width is applied at the identical offset of the caret line, so both lines stay
aligned.  Non-tab characters pass through unchanged. -/
def expandTabsFrom (tabStop : Nat) : Nat → List Char → List Char → List Char × List Char
  | _, [], ann => ([], ann)
  | col, c :: rest, ann =>
    let a := ann.headD ' '
    if c = '\t' then
      let n := tabStop - col % tabStop
      let p := expandTabsFrom tabStop (col + n) rest ann.tail
      (List.replicate n ' ' ++ p.1, List.replicate n a ++ p.2)
    else
      let p := expandTabsFrom tabStop (col + 1) rest ann.tail
      (c :: p.1, a :: p.2)

/-- Modelled from the spec: ExpandTabs on a source line and its parallel
annotation (caret) line, starting at column 0. -/
def ExpandTabs (tabStop : Nat) (sourceLine caretLine : List Char) : List Char × List Char :=
  expandTabsFrom tabStop 0 sourceLine caretLine

/-- Modelled from the spec: stable insertion of a repair hint into a list kept
sorted by ascending anchor column; the inserted hint, which was supplied
earlier than everything already in the list, goes before the first hint whose
anchor is greater than or equal to its own, so that earlier-supplied hints
with equal anchors stay first. -/
def insertSorted (h : Nat × List Char) : List (Nat × List Char) → List (Nat × List Char)
  | [] => [h]
  | y :: ys => if h.1 ≤ y.1 then h :: y :: ys else y :: insertSorted h ys

/-- Modelled from the spec: stable sort of repair hints by ascending anchor
column. -/
def sortByAnchor : List (Nat × List Char) → List (Nat × List Char)
  | [] => []
  | x :: xs => insertSorted x (sortByAnchor xs)

/-- Modelled from the spec: placement of one insertion hint on the fix-it
line.  The text goes at the hint's 1-based anchor column, but never before the
end of the text already placed, so later insertions shift rightward instead of
truncating or overwriting earlier ones; the gap up to the placement position
is padded with spaces. -/
def placeHint (buf : List Char) (anchorCol : Nat) (text : List Char) : List Char :=
  let pos := max (anchorCol - 1) buf.length
  buf ++ List.replicate (pos - buf.length) ' ' ++ text

/-- Modelled from the spec: BuildFixItInsertionLine, whose body in
TextDiagnostic.cpp is missing from the tree.  Hints anchored inside the
half-open column interval [startCol, stopCol) of the rendered line are kept,
stably sorted by anchor column, and placed left to right. -/
def BuildFixItInsertionLine (startCol stopCol : Nat)
    (hints : List (Nat × List Char)) : List Char :=
  (sortByAnchor (hints.filter fun h => startCol ≤ h.1 ∧ h.1 < stopCol)).foldl
    (fun buf h => placeHint buf h.1 h.2) []

/-- Modelled from the spec: splitting of a diagnostic message into words at
whitespace boundaries (runs of the space character separate words). -/
def splitWordsAux (cur : List Char) : List Char → List (List Char)
  | [] => if cur.isEmpty then [] else [cur.reverse]
  | c :: rest =>
    if c = ' ' then
      if cur.isEmpty then splitWordsAux [] rest
      else cur.reverse :: splitWordsAux [] rest
    else splitWordsAux (c :: cur) rest

/-- Modelled from the spec: the word list of a diagnostic message. -/
def splitWords (msg : List Char) : List (List Char) :=
  splitWordsAux [] msg

/-- Modelled from the spec: greedy word-wrapping.  Words are packed into the
current line while the column (previous width, plus one separating space, plus
the word's width) stays within the wrap column; a word that would cross the
wrap column starts a new line, and no word is ever broken apart.  The first
word of the message is placed on the first line, whose width starts at the
caller's current column. -/
def wrapWordsAux (wrapCol : Nat) : Nat → List (List Char) → List (List Char) →
    List (List (List Char))
  | _, cur, [] => if cur.isEmpty then [] else [cur.reverse]
  | curLen, cur, w :: ws =>
    if cur.isEmpty then
      wrapWordsAux wrapCol (curLen + w.length) [w] ws
    else if curLen + 1 + w.length ≤ wrapCol then
      wrapWordsAux wrapCol (curLen + 1 + w.length) (w :: cur) ws
    else
      cur.reverse :: wrapWordsAux wrapCol w.length [w] ws

/-- Modelled from the spec: word-wrapped lines of a message, each line given
as its list of words, starting from the caller's current column. -/
def wrapWords (wrapCol currentCol : Nat) (ws : List (List Char)) :
    List (List (List Char)) :=
  wrapWordsAux wrapCol currentCol [] ws

/-- Concatenation of the words of all wrapped lines, in order. -/
def flattenLines (lines : List (List (List Char))) : List (List Char) :=
  lines.foldr (fun l acc => l ++ acc) []

/-- Modelled from the spec: printDiagnosticMessage, whose body in
TextDiagnostic.cpp is missing from the tree.  A wrap column of 0 disables
wrapping (one unbroken line); otherwise the message is greedily word-wrapped,
the first line starting at the caller's current column. -/
def printDiagnosticMessage (msg : List Char) (currentCol wrapCol : Nat) :
    List (List (List Char)) :=
  if wrapCol = 0 then [splitWords msg] else wrapWords wrapCol currentCol (splitWords msg)

/-- Modelled from the spec: the include-stack root recorded for a location;
`none` when the location itself is unresolvable. -/
def includeKey (l : Loc) : Option (List Nat) :=
  match l.resolved with
  | none => none
  | some _ => some l.includeStack

/-- Modelled from the spec: emitIncludeStack, whose body in TextDiagnostic.cpp
is missing from the tree.  A chained note never re-prints include context; an
unresolvable location contributes no include context; otherwise the full chain
is printed unless the recorded last include root already matches. -/
def emitIncludeStack (st : RenderState) (l : Loc) (isChainedNote : Bool) :
    List OutItem :=
  if isChainedNote then []
  else
    match includeKey l with
    | none => []
    | some stack =>
      if st.lastIncludeLoc = some stack then []
      else stack.map OutItem.includeLine

/-- Modelled from the spec: the expansion-frame notes of EmitCaret.  With a
backtrace limit of 0, or a stack not deeper than the limit, every frame is
individually rendered as a synthesized note; otherwise the first `limit`
frames are rendered and the remaining frames collapse into a single elision
summary line. -/
def backtraceItems (limit : Nat) (frames : List Nat) : List OutItem :=
  if limit = 0 ∨ frames.length ≤ limit then frames.map OutItem.noteFrame
  else (frames.take limit).map OutItem.noteFrame
    ++ [OutItem.elisionLine (frames.length - limit)]

/-- Modelled from the spec: EmitSnippetAndCaret, whose body in
TextDiagnostic.cpp is missing from the tree.  When the line text is
unavailable nothing is rendered; otherwise the caret line is built by
underlining the ranges and placing the primary caret, both lines are
tab-expanded together, and a nonempty fix-it insertion line is appended. -/
def EmitSnippetAndCaret (opts : DiagOpts) (l : Loc) (ranges : List (Nat × Nat))
    (hints : List (Nat × List Char)) : List OutItem :=
  match l.lineText with
  | none => []
  | some src =>
    let caretCol := match l.resolved with
      | none => 1
      | some p => p.col
    let caret := placeCaret caretCol (highlightRanges ranges (List.replicate src.length ' '))
    let expanded := ExpandTabs opts.tabStop src caret
    let fixit := BuildFixItInsertionLine 1 (src.length + 1) hints
    [OutItem.sourceLine expanded.1, OutItem.caretLine expanded.2]
      ++ (if fixit.isEmpty then [] else [OutItem.fixitLine fixit])

/-- Modelled from the spec: EmitCaret, whose body in TextDiagnostic.cpp is
missing from the tree.  The walk over the expansion stack renders the
synthesized note frames subject to the backtrace limit, then the snippet and
caret block at the ultimate spelling location. -/
def EmitCaret (opts : DiagOpts) (l : Loc) (ranges : List (Nat × Nat))
    (hints : List (Nat × List Char)) : List OutItem :=
  backtraceItems opts.backtraceLimit l.expansionFrames
    ++ EmitSnippetAndCaret opts l ranges hints

/-- Modelled from the spec: the part of Emit that follows the include context:
the location header (omitted for an unresolvable location), the severity tag,
the message, and the caret block (invoked only for a resolvable location). -/
def emitMainItems (opts : DiagOpts) (d : Diag) : List OutItem :=
  (match d.loc.resolved with
   | none => []
   | some p => [OutItem.locHeader p.file p.line p.col])
    ++ [OutItem.levelTag d.level, OutItem.messageText d.message]
    ++ (match d.loc.resolved with
        | none => []
        | some _ => EmitCaret opts d.loc d.ranges d.hints)

/-- Modelled from the spec: Emit, whose body in TextDiagnostic.cpp is missing
from the tree.  The include context is printed first, then the location
header, severity tag, message and caret block; the recorded state (last
location, last include root, last level) is updated to the current call's
values unconditionally at the end. -/
def Emit (opts : DiagOpts) (st : RenderState) (d : Diag) (isChainedNote : Bool) :
    List OutItem × RenderState :=
  (emitIncludeStack st d.loc isChainedNote ++ emitMainItems opts d,
   { lastLoc := d.loc.resolved
     lastIncludeLoc := includeKey d.loc
     lastLevel := d.level })

/-- Render state of a freshly constructed TextDiagnostic: the constructor's
default arguments are invalid FullSourceLoc values for LastLoc and
LastIncludeLoc and the zero severity level. -/
def initState : RenderState :=
  { lastLoc := none, lastIncludeLoc := none, lastLevel := DiagLevel.ignored }

/-! Concrete data used by witnesses and counterexamples. -/

def sampleOpts : DiagOpts :=
  { tabStop := 8, wrapColumn := 0, backtraceLimit := 100 }

def sampleOptsLimit1 : DiagOpts :=
  { tabStop := 8, wrapColumn := 0, backtraceLimit := 1 }

def sampleOptsLimit0 : DiagOpts :=
  { tabStop := 8, wrapColumn := 0, backtraceLimit := 0 }

def sampleLocA : Loc :=
  { resolved := some ⟨1, 2, 3⟩, lineText := some ['i', 'n', 't'],
    includeStack := [1], expansionFrames := [] }

def sampleLocB : Loc :=
  { resolved := some ⟨2, 5, 1⟩, lineText := some ['x'],
    includeStack := [2, 3], expansionFrames := [] }

def sampleLocMacro : Loc :=
  { resolved := some ⟨1, 2, 3⟩, lineText := some ['z'],
    includeStack := [], expansionFrames := [10, 11, 12] }

def sampleLocBad : Loc :=
  { resolved := none, lineText := none, includeStack := [], expansionFrames := [] }

def sampleDiagA : Diag :=
  { loc := sampleLocA, level := DiagLevel.warning, message := ['m'],
    ranges := [], hints := [] }

def sampleDiagA2 : Diag :=
  { loc := sampleLocA, level := DiagLevel.error, message := ['n'],
    ranges := [], hints := [] }

def sampleDiagB : Diag :=
  { loc := sampleLocB, level := DiagLevel.note, message := ['o'],
    ranges := [], hints := [] }

def sampleDiagBad : Diag :=
  { loc := sampleLocBad, level := DiagLevel.error, message := ['e'],
    ranges := [], hints := [] }

/-! Helper lemmas about the range highlighter. -/

theorem highlightAux_of_le (s e : Nat) (l : List Char) :
    ∀ col, e ≤ col → highlightAux s e col l = l := by
  induction l with
  | nil => intro col _; rfl
  | cons ch rest ih =>
    intro col hcol
    simp only [highlightAux]
    rw [if_neg (by omega), ih (col + 1) (by omega)]

theorem placeCaretAux_of_lt (caretCol : Nat) (l : List Char) :
    ∀ col, caretCol < col → placeCaretAux caretCol col l = l := by
  induction l with
  | nil => intro col _; rfl
  | cons ch rest ih =>
    intro col hcol
    simp only [placeCaretAux]
    rw [if_neg (by omega), ih (col + 1) (by omega)]

theorem highlightAux_getElem? (s e : Nat) (l : List Char) :
    ∀ c i, (highlightAux s e c l)[i]? =
      (l[i]?).map (fun ch => if s ≤ c + i ∧ c + i < e then '~' else ch) := by
  induction l with
  | nil => intro c i; simp [highlightAux]
  | cons ch rest ih =>
    intro c i
    cases i with
    | zero => simp [highlightAux]
    | succ j =>
      simp only [highlightAux, List.getElem?_cons_succ]
      rw [ih (c + 1) j]
      have hc : c + 1 + j = c + (j + 1) := by omega
      rw [hc]

theorem highlightAux_length (s e : Nat) (l : List Char) :
    ∀ col, (highlightAux s e col l).length = l.length := by
  induction l with
  | nil => intro col; rfl
  | cons ch rest ih => intro col; simp [highlightAux, ih]

/-- Claim C1: on a line of length L (at least 4), HighlightRange for the
single 1-based half-open range [2,5) yields an annotation line of length L
with underlines exactly at columns 2, 3 and 4 and spaces elsewhere; placing
the primary caret at column 3 afterwards turns exactly that column into the
caret character, leaving the other underlined columns unchanged. -/
theorem highlightRange_marks_and_caret_override (L : Nat) (hL : 4 ≤ L) :
    HighlightRange 2 5 (List.replicate L ' ')
      = ' ' :: '~' :: '~' :: '~' :: List.replicate (L - 4) ' '
    ∧ placeCaret 3 (HighlightRange 2 5 (List.replicate L ' '))
      = ' ' :: '~' :: '^' :: '~' :: List.replicate (L - 4) ' '
    ∧ (HighlightRange 2 5 (List.replicate L ' ')).length = L
    ∧ (placeCaret 3 (HighlightRange 2 5 (List.replicate L ' '))).length = L := by
  obtain ⟨k, rfl⟩ : ∃ k, L = 4 + k := ⟨L - 4, by omega⟩
  have hk : 4 + k - 4 = k := by omega
  have hrep : List.replicate (4 + k) ' ' = ' ' :: ' ' :: ' ' :: ' ' :: List.replicate k ' ' := by
    rw [List.replicate_add]; rfl
  have h1 : HighlightRange 2 5 (List.replicate (4 + k) ' ')
      = ' ' :: '~' :: '~' :: '~' :: List.replicate k ' ' := by
    rw [hrep]
    simp only [HighlightRange, highlightAux]
    norm_num
    exact highlightAux_of_le 2 5 _ 5 (le_refl 5)
  have h2 : placeCaret 3 (HighlightRange 2 5 (List.replicate (4 + k) ' '))
      = ' ' :: '~' :: '^' :: '~' :: List.replicate k ' ' := by
    rw [h1]
    simp only [placeCaret, placeCaretAux]
    norm_num
    exact placeCaretAux_of_lt 3 _ 5 (by omega)
  rw [hk, h2, h1]
  refine ⟨rfl, rfl, ?_, ?_⟩ <;> simp <;> omega

/-- Witness for C1 at the concrete line length 10. -/
theorem highlightRange_marks_and_caret_override_witness :
    HighlightRange 2 5 (List.replicate 10 ' ')
      = ' ' :: '~' :: '~' :: '~' :: List.replicate (10 - 4) ' '
    ∧ placeCaret 3 (HighlightRange 2 5 (List.replicate 10 ' '))
      = ' ' :: '~' :: '^' :: '~' :: List.replicate (10 - 4) ' '
    ∧ (HighlightRange 2 5 (List.replicate 10 ' ')).length = 10
    ∧ (placeCaret 3 (HighlightRange 2 5 (List.replicate 10 ' '))).length = 10 :=
  highlightRange_marks_and_caret_override 10 (by decide)

/-- Claim C2: highlighting is a set union over ranges: on any line, applying
HighlightRange for the overlapping ranges [1,4) and [3,6), in either order,
produces exactly the annotation line of the single range [1,6); doubly
covered columns get no distinct marker. -/
theorem highlightRange_overlap_union (l : List Char) :
    highlightRanges [(1, 4), (3, 6)] l = highlightRanges [(1, 6)] l
    ∧ highlightRanges [(3, 6), (1, 4)] l = highlightRanges [(1, 6)] l := by
  constructor <;>
  · apply List.ext_getElem?
    intro i
    simp only [highlightRanges, List.foldl_cons, List.foldl_nil, HighlightRange,
      highlightAux_getElem?, Option.map_map]
    cases hl : l[i]? with
    | none => rfl
    | some ch =>
      simp only [Option.map_some']
      congr 1
      simp only [Function.comp]
      split_ifs <;> first | rfl | (exfalso; omega)

/-! Helper lemmas about the tab expander. -/

theorem headD_drop (l : List Char) :
    ∀ (n : Nat) (d : Char), (l.drop n).headD d = l.getD n d := by
  induction l with
  | nil => intro n d; cases n <;> simp [List.getD]
  | cons a t ih =>
    intro n d
    cases n with
    | zero => simp [List.getD]
    | succ m => simp [List.getD, ← ih m d]

theorem expandTabsFrom_no_tab_segment (T : Nat) (pre : List Char) :
    ∀ (col : Nat) (rest ann : List Char), '\t' ∉ pre → pre.length ≤ ann.length →
      expandTabsFrom T col (pre ++ rest) ann
        = (pre ++ (expandTabsFrom T (col + pre.length) rest (ann.drop pre.length)).1,
           ann.take pre.length
             ++ (expandTabsFrom T (col + pre.length) rest (ann.drop pre.length)).2) := by
  induction pre with
  | nil => intro col rest ann _ _; simp
  | cons c pre ih =>
    intro col rest ann htab hlen
    have hc : c ≠ '\t' := fun h => htab (by simp [h])
    have htab' : '\t' ∉ pre := fun h => htab (List.mem_cons_of_mem _ h)
    cases ann with
    | nil => simp at hlen
    | cons a ann =>
      have hlen' : pre.length ≤ ann.length := by simp at hlen; omega
      simp only [List.cons_append, expandTabsFrom, List.headD, List.tail_cons, if_neg hc,
        List.append_eq]
      rw [ih (col + 1) rest ann htab' hlen']
      have hcol : col + 1 + pre.length = col + (pre.length + 1) := by omega
      simp [hcol]

theorem expandTabsFrom_no_tab (T : Nat) (l : List Char) (col : Nat) (ann : List Char)
    (htab : '\t' ∉ l) (hlen : l.length = ann.length) :
    expandTabsFrom T col l ann = (l, ann) := by
  have h := expandTabsFrom_no_tab_segment T l col [] ann htab (le_of_eq hlen)
  simpa [expandTabsFrom, List.take_append_drop] using h

/-- Counterexample to claim C3 as stated: with tab width 8 and a lone tab at
1-based column 8, ExpandTabs leaves the line length unchanged at 8 (the tab
advances the column by a single space), while the claimed growth of
tabWidth - c mod tabWidth = 8 would give length 16. -/
theorem expandTabs_single_tab_cex :
    (ExpandTabs 8 (List.replicate 7 'a' ++ '\t' :: []) (List.replicate 8 ' ')).1.length
        = (List.replicate 7 'a' ++ '\t' :: ([] : List Char)).length
    ∧ (List.replicate 7 'a' ++ '\t' :: ([] : List Char)).length
        + (8 - ((List.replicate 7 'a' : List Char).length + 1) % 8) = 16
    ∧ (ExpandTabs 8 (List.replicate 7 'a' ++ '\t' :: []) (List.replicate 8 ' ')).1.length
        ≠ 16 := by
  refine ⟨rfl, rfl, ?_⟩
  decide

/-- Claim C3 (amended): for a source line with a single tab at 1-based column
c = pre.length + 1 and an aligned annotation line, ExpandTabs replaces the tab
by tabWidth - (c-1) mod tabWidth spaces, so the source line's length grows by
that amount minus one; this equals tabWidth - c mod tabWidth whenever c is not
a multiple of tabWidth (and is 0 when it is); the annotation line receives a
substitution of exactly the same width at the identical offset, so both lines
stay aligned column-for-column. -/
theorem expandTabs_single_tab_growth (T : Nat) (pre post ann : List Char)
    (hT : 0 < T) (hpre : '\t' ∉ pre) (hpost : '\t' ∉ post)
    (hlen : ann.length = pre.length + 1 + post.length) :
    (ExpandTabs T (pre ++ '\t' :: post) ann).1
      = pre ++ List.replicate (T - pre.length % T) ' ' ++ post
    ∧ (ExpandTabs T (pre ++ '\t' :: post) ann).2
      = ann.take pre.length
          ++ List.replicate (T - pre.length % T) (ann.getD pre.length ' ')
          ++ ann.drop (pre.length + 1)
    ∧ (ExpandTabs T (pre ++ '\t' :: post) ann).1.length
      = (ExpandTabs T (pre ++ '\t' :: post) ann).2.length
    ∧ (ExpandTabs T (pre ++ '\t' :: post) ann).1.length + 1
      = (pre ++ '\t' :: post).length + (T - pre.length % T)
    ∧ ((pre.length + 1) % T ≠ 0 →
        (ExpandTabs T (pre ++ '\t' :: post) ann).1.length
          = (pre ++ '\t' :: post).length + (T - (pre.length + 1) % T)) := by
  have hr : pre.length % T < T := Nat.mod_lt _ hT
  have hdrop : (ann.drop pre.length).tail = ann.drop (pre.length + 1) := by
    rw [List.tail_drop]
  have hmain : ExpandTabs T (pre ++ '\t' :: post) ann
      = (pre ++ List.replicate (T - pre.length % T) ' ' ++ post,
         ann.take pre.length
           ++ List.replicate (T - pre.length % T) (ann.getD pre.length ' ')
           ++ ann.drop (pre.length + 1)) := by
    unfold ExpandTabs
    rw [expandTabsFrom_no_tab_segment T pre 0 ('\t' :: post) ann hpre (by omega)]
    simp only [expandTabsFrom, if_pos rfl, hdrop, Nat.zero_add]
    rw [expandTabsFrom_no_tab T post _ (ann.drop (pre.length + 1)) hpost
      (by simp [List.length_drop]; omega)]
    simp [headD_drop, List.append_assoc]
  have hlen1 : (ExpandTabs T (pre ++ '\t' :: post) ann).1.length
      = pre.length + (T - pre.length % T) + post.length := by
    rw [hmain]; simp; ring
  have hlen2 : (ExpandTabs T (pre ++ '\t' :: post) ann).2.length
      = pre.length + (T - pre.length % T) + post.length := by
    rw [hmain]
    simp [List.length_take, List.length_drop]
    omega
  have hsucc : (pre.length + 1) % T = (pre.length % T + 1) % T := by
    conv_lhs => rw [← Nat.div_add_mod pre.length T]
    rw [show T * (pre.length / T) + pre.length % T + 1
        = pre.length % T + 1 + T * (pre.length / T) by ring]
    exact Nat.add_mul_mod_self_left (pre.length % T + 1) T (pre.length / T)
  refine ⟨congrArg Prod.fst hmain, congrArg Prod.snd hmain, by rw [hlen1, hlen2], ?_, ?_⟩
  · rw [hlen1]; simp; omega
  · intro h0
    rcases Nat.lt_or_ge (pre.length % T + 1) T with hlt | hge
    · have hm : (pre.length + 1) % T = pre.length % T + 1 := by
        rw [hsucc, Nat.mod_eq_of_lt hlt]
      rw [hm, hlen1]
      simp
      omega
    · exfalso
      have hTeq : pre.length % T + 1 = T := by omega
      rw [hsucc, hTeq, Nat.mod_self] at h0
      exact h0 rfl

/-- Witness for the amended claim C3: tab width 8, source line "ab&lt;tab&gt;cd"
(tab at 1-based column 3), annotation line "pqrst". -/
theorem expandTabs_single_tab_growth_witness :
    (ExpandTabs 8 (['a', 'b'] ++ '\t' :: ['c', 'd']) ['p', 'q', 'r', 's', 't']).1
      = ['a', 'b'] ++ List.replicate (8 - (['a', 'b'] : List Char).length % 8) ' ' ++ ['c', 'd']
    ∧ (ExpandTabs 8 (['a', 'b'] ++ '\t' :: ['c', 'd']) ['p', 'q', 'r', 's', 't']).2
      = (['p', 'q', 'r', 's', 't'] : List Char).take (['a', 'b'] : List Char).length
          ++ List.replicate (8 - (['a', 'b'] : List Char).length % 8)
              ((['p', 'q', 'r', 's', 't'] : List Char).getD (['a', 'b'] : List Char).length ' ')
          ++ (['p', 'q', 'r', 's', 't'] : List Char).drop ((['a', 'b'] : List Char).length + 1)
    ∧ (ExpandTabs 8 (['a', 'b'] ++ '\t' :: ['c', 'd']) ['p', 'q', 'r', 's', 't']).1.length
      = (ExpandTabs 8 (['a', 'b'] ++ '\t' :: ['c', 'd']) ['p', 'q', 'r', 's', 't']).2.length
    ∧ (ExpandTabs 8 (['a', 'b'] ++ '\t' :: ['c', 'd']) ['p', 'q', 'r', 's', 't']).1.length + 1
      = ((['a', 'b'] : List Char) ++ '\t' :: ['c', 'd']).length
          + (8 - (['a', 'b'] : List Char).length % 8)
    ∧ (ExpandTabs 8 (['a', 'b'] ++ '\t' :: ['c', 'd']) ['p', 'q', 'r', 's', 't']).1.length
      = ((['a', 'b'] : List Char) ++ '\t' :: ['c', 'd']).length
          + (8 - ((['a', 'b'] : List Char).length + 1) % 8) := by
  have h := expandTabs_single_tab_growth 8 ['a', 'b'] ['c', 'd'] ['p', 'q', 'r', 's', 't']
    (by decide) (by decide) (by decide) (by decide)
  exact ⟨h.1, h.2.1, h.2.2.1, h.2.2.2.1, h.2.2.2.2 (by decide)⟩

/-- Claim C6: two insertion hints anchored at the same 1-based column c of the
rendered line, with texts "A" and "B" supplied in that order, produce the
fix-it line with "AB" at column c: the earlier hint's text first, the later
hint's text immediately after, neither truncating nor overwriting the
other. -/
theorem buildFixItInsertionLine_same_anchor (s e c : Nat)
    (hs : s ≤ c) (he : c < e) (hc : 1 ≤ c) :
    BuildFixItInsertionLine s e [(c, ['A']), (c, ['B'])]
      = List.replicate (c - 1) ' ' ++ ['A', 'B']
    ∧ (BuildFixItInsertionLine s e [(c, ['A']), (c, ['B'])]).length = c + 1 := by
  have hplace1 : placeHint [] c ['A'] = List.replicate (c - 1) ' ' ++ ['A'] := by
    simp [placeHint]
  have hlenA : (List.replicate (c - 1) ' ' ++ (['A'] : List Char)).length = c := by
    simp; omega
  have hplace2 : placeHint (List.replicate (c - 1) ' ' ++ ['A']) c ['B']
      = List.replicate (c - 1) ' ' ++ ['A', 'B'] := by
    simp only [placeHint, hlenA]
    rw [Nat.max_eq_right (by omega : c - 1 ≤ c), Nat.sub_self]
    simp
  have hmain : BuildFixItInsertionLine s e [(c, ['A']), (c, ['B'])]
      = List.replicate (c - 1) ' ' ++ ['A', 'B'] := by
    simp only [BuildFixItInsertionLine, List.filter_cons, List.filter_nil]
    rw [if_pos (by simp [hs, he]), if_pos (by simp [hs, he])]
    simp only [sortByAnchor, insertSorted, le_refl, if_true]
    simp only [List.foldl_cons, List.foldl_nil, hplace1, hplace2]
  refine ⟨hmain, ?_⟩
  rw [hmain]
  simp
  omega

/-- Witness for C6 at the concrete anchors: line columns [1,10), both hints at
column 4. -/
theorem buildFixItInsertionLine_same_anchor_witness :
    BuildFixItInsertionLine 1 10 [(4, ['A']), (4, ['B'])]
      = List.replicate (4 - 1) ' ' ++ ['A', 'B']
    ∧ (BuildFixItInsertionLine 1 10 [(4, ['A']), (4, ['B'])]).length = 4 + 1 :=
  buildFixItInsertionLine_same_anchor 1 10 4 (by decide) (by decide) (by decide)

/-! Helper lemmas about the message formatter. -/

theorem flattenLines_nil : flattenLines [] = [] := rfl

theorem flattenLines_cons (l : List (List Char)) (ls : List (List (List Char))) :
    flattenLines (l :: ls) = l ++ flattenLines ls := rfl

theorem wrapWordsAux_flatten (wrapCol : Nat) :
    ∀ (ws : List (List Char)) (curLen : Nat) (cur : List (List Char)),
      flattenLines (wrapWordsAux wrapCol curLen cur ws) = cur.reverse ++ ws := by
  intro ws
  induction ws with
  | nil =>
    intro curLen cur
    cases cur <;> simp [wrapWordsAux, flattenLines]
  | cons w ws ih =>
    intro curLen cur
    cases cur with
    | nil => simp [wrapWordsAux, ih]
    | cons x xs =>
      simp only [wrapWordsAux, List.isEmpty_cons, Bool.false_eq_true, if_false]
      split_ifs with h
      · rw [ih]; simp
      · rw [flattenLines_cons, ih]; simp

/-- Claim C7: the message formatter never splits a word across a wrap
boundary, in particular not a trailing bracketed diagnostic-flag tag: the
words of all wrapped lines, concatenated in order, are exactly the words of
the message, for every wrap column and starting column.  On the concrete
message "abcdefghij klmnopqrst uvwxyz [-Wfoo]" with wrap column 20, the tag
"[-Wfoo]" would cross column 20 and is instead moved whole to start a new
line, appearing intact on exactly one output line. -/
theorem printDiagnosticMessage_tag_not_split :
    (∀ (wrapCol currentCol : Nat) (ws : List (List Char)),
        flattenLines (wrapWords wrapCol currentCol ws) = ws)
    ∧ printDiagnosticMessage "abcdefghij klmnopqrst uvwxyz [-Wfoo]".data 0 20
        = [["abcdefghij".data], ["klmnopqrst".data, "uvwxyz".data], ["[-Wfoo]".data]]
    ∧ (printDiagnosticMessage "abcdefghij klmnopqrst uvwxyz [-Wfoo]".data 0 20).countP
        (fun line => decide ("[-Wfoo]".data ∈ line)) = 1 := by
  refine ⟨fun wc cc ws => wrapWordsAux_flatten wc ws cc [], ?_, ?_⟩ <;> decide

/-! Helper lemmas about the emit pipeline. -/

theorem mem_backtraceItems (limit : Nat) (frames : List Nat) (x : OutItem)
    (hx : x ∈ backtraceItems limit frames) :
    (∃ f, x = OutItem.noteFrame f) ∨ (∃ k, x = OutItem.elisionLine k) := by
  unfold backtraceItems at hx
  split at hx
  · rcases List.mem_map.mp hx with ⟨f, _, rfl⟩
    exact Or.inl ⟨f, rfl⟩
  · rcases List.mem_append.mp hx with h | h
    · rcases List.mem_map.mp h with ⟨f, _, rfl⟩
      exact Or.inl ⟨f, rfl⟩
    · simp at h
      exact Or.inr ⟨_, h⟩

theorem mem_EmitSnippetAndCaret (opts : DiagOpts) (l : Loc) (ranges : List (Nat × Nat))
    (hints : List (Nat × List Char)) (x : OutItem)
    (hx : x ∈ EmitSnippetAndCaret opts l ranges hints) :
    (∃ t, x = OutItem.sourceLine t) ∨ (∃ t, x = OutItem.caretLine t)
      ∨ (∃ t, x = OutItem.fixitLine t) := by
  unfold EmitSnippetAndCaret at hx
  cases hl : l.lineText with
  | none => rw [hl] at hx; simp at hx
  | some src =>
    rw [hl] at hx
    simp only at hx
    rcases List.mem_append.mp hx with h | h
    · simp at h
      rcases h with h | h
      · exact Or.inl ⟨_, h⟩
      · exact Or.inr (Or.inl ⟨_, h⟩)
    · split at h
      · simp at h
      · simp at h
        exact Or.inr (Or.inr ⟨_, h⟩)

theorem mem_EmitCaret (opts : DiagOpts) (l : Loc) (ranges : List (Nat × Nat))
    (hints : List (Nat × List Char)) (x : OutItem)
    (hx : x ∈ EmitCaret opts l ranges hints) :
    (∃ f, x = OutItem.noteFrame f) ∨ (∃ k, x = OutItem.elisionLine k)
      ∨ (∃ t, x = OutItem.sourceLine t) ∨ (∃ t, x = OutItem.caretLine t)
      ∨ (∃ t, x = OutItem.fixitLine t) := by
  rcases List.mem_append.mp hx with h | h
  · rcases mem_backtraceItems _ _ _ h with h | h
    · exact Or.inl h
    · exact Or.inr (Or.inl h)
  · rcases mem_EmitSnippetAndCaret _ _ _ _ _ h with h | h | h
    · exact Or.inr (Or.inr (Or.inl h))
    · exact Or.inr (Or.inr (Or.inr (Or.inl h)))
    · exact Or.inr (Or.inr (Or.inr (Or.inr h)))

theorem mem_emitMainItems_not_include (opts : DiagOpts) (d : Diag) (x : OutItem)
    (hx : x ∈ emitMainItems opts d) : isIncludeLine x = false := by
  unfold emitMainItems at hx
  rcases List.mem_append.mp hx with h | h
  · rcases List.mem_append.mp h with h | h
    · cases hres : d.loc.resolved with
      | none => rw [hres] at h; simp at h
      | some p => rw [hres] at h; simp at h; subst h; rfl
    · simp at h
      rcases h with h | h <;> subst h <;> rfl
  · cases hres : d.loc.resolved with
    | none => rw [hres] at h; simp at h
    | some p =>
      rw [hres] at h
      rcases mem_EmitCaret _ _ _ _ _ h with ⟨f, rfl⟩ | ⟨k, rfl⟩ | ⟨t, rfl⟩ | ⟨t, rfl⟩ | ⟨t, rfl⟩
        <;> rfl

theorem mem_emitIncludeStack (st : RenderState) (l : Loc) (cn : Bool) (x : OutItem)
    (hx : x ∈ emitIncludeStack st l cn) : ∃ f, x = OutItem.includeLine f := by
  unfold emitIncludeStack at hx
  split at hx
  · simp at hx
  · split at hx
    · simp at hx
    · split at hx
      · simp at hx
      · rcases List.mem_map.mp hx with ⟨f, _, rfl⟩
        exact ⟨f, rfl⟩

/-- Claim C5: for a location three levels deep in nested substitution and a
backtrace limit of 1, the expansion-stack walk renders exactly one
synthesized note frame plus exactly one elision summary line covering the two
skipped frames; with the limit 0, no elision line is emitted and every frame
is individually rendered. -/
theorem emitCaret_backtrace_limit (opts : DiagOpts) (l : Loc)
    (ranges : List (Nat × Nat)) (hints : List (Nat × List Char)) :
    (opts.backtraceLimit = 1 → l.expansionFrames.length = 3 →
      ((EmitCaret opts l ranges hints).countP isNoteFrame = 1
       ∧ (EmitCaret opts l ranges hints).countP isElisionLine = 1
       ∧ OutItem.elisionLine 2 ∈ EmitCaret opts l ranges hints))
    ∧ (opts.backtraceLimit = 0 →
      ((EmitCaret opts l ranges hints).countP isElisionLine = 0
       ∧ (EmitCaret opts l ranges hints).countP isNoteFrame
           = l.expansionFrames.length)) := by
  have hsn : (EmitSnippetAndCaret opts l ranges hints).countP isNoteFrame = 0 :=
    List.countP_eq_zero.mpr fun x hx => by
      rcases mem_EmitSnippetAndCaret _ _ _ _ _ hx with ⟨t, rfl⟩ | ⟨t, rfl⟩ | ⟨t, rfl⟩
        <;> simp [isNoteFrame]
  have hse : (EmitSnippetAndCaret opts l ranges hints).countP isElisionLine = 0 :=
    List.countP_eq_zero.mpr fun x hx => by
      rcases mem_EmitSnippetAndCaret _ _ _ _ _ hx with ⟨t, rfl⟩ | ⟨t, rfl⟩ | ⟨t, rfl⟩
        <;> simp [isElisionLine]
  constructor
  · intro hlim hlen
    have hbt : backtraceItems opts.backtraceLimit l.expansionFrames
        = (l.expansionFrames.take 1).map OutItem.noteFrame
            ++ [OutItem.elisionLine 2] := by
      unfold backtraceItems
      rw [hlim, hlen]
      norm_num
    unfold EmitCaret
    rw [hbt]
    refine ⟨?_, ?_, ?_⟩
    · rw [List.countP_append, List.countP_append, hsn, List.countP_map]
      simp [Function.comp_def, isNoteFrame, List.length_take, hlen]
    · rw [List.countP_append, List.countP_append, hse, List.countP_map]
      simp [Function.comp_def, isElisionLine, isNoteFrame]
    · simp
  · intro hlim
    have hbt : backtraceItems opts.backtraceLimit l.expansionFrames
        = l.expansionFrames.map OutItem.noteFrame := by
      unfold backtraceItems
      rw [hlim]
      simp
    unfold EmitCaret
    rw [hbt]
    constructor
    · rw [List.countP_append, hse, List.countP_map]
      simp [Function.comp_def, isElisionLine]
    · rw [List.countP_append, hsn, List.countP_map]
      simp [Function.comp_def, isNoteFrame]

/-- Witness for C5: a location with three expansion frames, once rendered
with backtrace limit 1 and once with limit 0. -/
theorem emitCaret_backtrace_limit_witness :
    ((EmitCaret sampleOptsLimit1 sampleLocMacro [] []).countP isNoteFrame = 1
     ∧ (EmitCaret sampleOptsLimit1 sampleLocMacro [] []).countP isElisionLine = 1
     ∧ OutItem.elisionLine 2 ∈ EmitCaret sampleOptsLimit1 sampleLocMacro [] [])
    ∧ ((EmitCaret sampleOptsLimit0 sampleLocMacro [] []).countP isElisionLine = 0
     ∧ (EmitCaret sampleOptsLimit0 sampleLocMacro [] []).countP isNoteFrame
         = sampleLocMacro.expansionFrames.length) :=
  ⟨(emitCaret_backtrace_limit sampleOptsLimit1 sampleLocMacro [] []).1 (by decide) (by decide),
   (emitCaret_backtrace_limit sampleOptsLimit0 sampleLocMacro [] []).2 (by decide)⟩

/-- Claim C8: Emit is a total function that always prints the severity tag
and the message; when the location does not resolve, the include context,
location header and snippet block are omitted and the output is exactly the
severity tag and message; when the line text is unavailable, no source or
caret line is emitted; no failure is ever propagated. -/
theorem emit_degrades_gracefully (opts : DiagOpts) (st : RenderState) (d : Diag)
    (cn : Bool) :
    OutItem.levelTag d.level ∈ (Emit opts st d cn).1
    ∧ OutItem.messageText d.message ∈ (Emit opts st d cn).1
    ∧ (d.loc.resolved = none →
        (Emit opts st d cn).1
          = [OutItem.levelTag d.level, OutItem.messageText d.message])
    ∧ (d.loc.lineText = none →
        ((Emit opts st d cn).1.countP isSourceLine = 0
         ∧ (Emit opts st d cn).1.countP isCaretLine = 0)) := by
  have hmem : ∀ y ∈ [OutItem.levelTag d.level, OutItem.messageText d.message],
      y ∈ (Emit opts st d cn).1 := by
    intro y hy
    show y ∈ emitIncludeStack st d.loc cn ++ emitMainItems opts d
    apply List.mem_append_right
    unfold emitMainItems
    exact List.mem_append_left _ (List.mem_append_right _ hy)
  refine ⟨hmem _ (by simp), hmem _ (by simp), ?_, ?_⟩
  · intro hres
    have h1 : emitIncludeStack st d.loc cn = [] := by
      unfold emitIncludeStack includeKey
      rw [hres]
      cases cn <;> simp
    have h2 : emitMainItems opts d
        = [OutItem.levelTag d.level, OutItem.messageText d.message] := by
      unfold emitMainItems
      rw [hres]
      simp
    show emitIncludeStack st d.loc cn ++ emitMainItems opts d = _
    rw [h1, h2]
    rfl
  · intro hline
    have hz : ∀ x ∈ (Emit opts st d cn).1,
        isSourceLine x = false ∧ isCaretLine x = false := by
      intro x hx
      rcases List.mem_append.mp hx with h | h
      · rcases mem_emitIncludeStack _ _ _ _ h with ⟨f, rfl⟩
        exact ⟨rfl, rfl⟩
      · unfold emitMainItems at h
        rcases List.mem_append.mp h with h | h
        · rcases List.mem_append.mp h with h | h
          · cases hres : d.loc.resolved with
            | none => rw [hres] at h; simp at h
            | some p =>
              rw [hres] at h
              simp at h
              subst h
              exact ⟨rfl, rfl⟩
          · simp at h
            rcases h with h | h <;> subst h <;> exact ⟨rfl, rfl⟩
        · cases hres : d.loc.resolved with
          | none => rw [hres] at h; simp at h
          | some p =>
            rw [hres] at h
            rcases List.mem_append.mp h with h | h
            · rcases mem_backtraceItems _ _ _ h with ⟨f, rfl⟩ | ⟨k, rfl⟩
                <;> exact ⟨rfl, rfl⟩
            · unfold EmitSnippetAndCaret at h
              rw [hline] at h
              simp at h
    exact ⟨List.countP_eq_zero.mpr fun x hx => by simp [(hz x hx).1],
           List.countP_eq_zero.mpr fun x hx => by simp [(hz x hx).2]⟩

/-- Witness for C8: a diagnostic whose location neither resolves nor has line
text still prints exactly the severity tag and the message. -/
theorem emit_degrades_gracefully_witness :
    OutItem.levelTag sampleDiagBad.level ∈ (Emit sampleOpts initState sampleDiagBad false).1
    ∧ OutItem.messageText sampleDiagBad.message
        ∈ (Emit sampleOpts initState sampleDiagBad false).1
    ∧ (Emit sampleOpts initState sampleDiagBad false).1
        = [OutItem.levelTag sampleDiagBad.level, OutItem.messageText sampleDiagBad.message]
    ∧ ((Emit sampleOpts initState sampleDiagBad false).1.countP isSourceLine = 0
       ∧ (Emit sampleOpts initState sampleDiagBad false).1.countP isCaretLine = 0) := by
  have h := emit_degrades_gracefully sampleOpts initState sampleDiagBad false
  exact ⟨h.1, h.2.1, h.2.2.1 (by decide), h.2.2.2 (by decide)⟩

/-- Claim C9: every Emit call, on every input, ends with the recorded render
state equal to the current call's values (resolved location, include root,
severity level); the resulting state does not depend on the pre-call state at
all. -/
theorem emit_updates_state (opts : DiagOpts) (st : RenderState) (d : Diag)
    (cn : Bool) :
    (Emit opts st d cn).2.lastLoc = d.loc.resolved
    ∧ (Emit opts st d cn).2.lastIncludeLoc = includeKey d.loc
    ∧ (Emit opts st d cn).2.lastLevel = d.level
    ∧ ∀ st' : RenderState, (Emit opts st d cn).2 = (Emit opts st' d cn).2 :=
  ⟨rfl, rfl, rfl, fun _ => rfl⟩

theorem filter_includeLine_map (s : List Nat) :
    (s.map OutItem.includeLine).filter isIncludeLine = s.map OutItem.includeLine :=
  List.filter_eq_self.mpr fun a ha => by
    rcases List.mem_map.mp ha with ⟨f, _, rfl⟩
    rfl

theorem filter_includeLine_emitMainItems (opts : DiagOpts) (d : Diag) :
    (emitMainItems opts d).filter isIncludeLine = [] :=
  List.filter_eq_nil_iff.mpr fun a ha => by
    simp [mem_emitMainItems_not_include opts d a ha]

/-- Counterexample to claim C4 as stated: a second consecutive Emit call
whose include root differs from the first call's but which is flagged as a
chained note.  The claim, read over all Emit calls, demands the second call
print its own full include chain; the renderer emits zero include-context
lines for it. -/
theorem emit_include_suppression_cex :
    sampleDiagB.loc.includeStack ≠ sampleDiagA.loc.includeStack
    ∧ sampleDiagB.loc.includeStack ≠ []
    ∧ ((Emit sampleOpts (Emit sampleOpts initState sampleDiagA false).2
        sampleDiagB true).1).countP isIncludeLine = 0 := by
  decide

/-- Claim C4 (amended): after an Emit call for a resolvable location, the
recorded last-include-root state equals that call's include stack, and for the
next Emit call on a resolvable location: if its include stack equals the
previous one, zero include-context lines are emitted (whether or not the call
is a chained note); if it differs and the second call is not flagged as a
chained note, the second call prints its own full include chain. -/
theorem emit_include_suppression (opts : DiagOpts) (st0 : RenderState)
    (d1 d2 : Diag) (cn1 : Bool) (p1 p2 : LogicalPos)
    (h1 : d1.loc.resolved = some p1) (h2 : d2.loc.resolved = some p2) :
    (Emit opts st0 d1 cn1).2.lastIncludeLoc = some d1.loc.includeStack
    ∧ (d2.loc.includeStack = d1.loc.includeStack →
        ∀ cn2 : Bool,
          ((Emit opts (Emit opts st0 d1 cn1).2 d2 cn2).1).countP isIncludeLine = 0)
    ∧ (d2.loc.includeStack ≠ d1.loc.includeStack →
        ((Emit opts (Emit opts st0 d1 cn1).2 d2 false).1).filter isIncludeLine
          = d2.loc.includeStack.map OutItem.includeLine) := by
  have hkey1 : includeKey d1.loc = some d1.loc.includeStack := by
    unfold includeKey
    rw [h1]
  have hkey2 : includeKey d2.loc = some d2.loc.includeStack := by
    unfold includeKey
    rw [h2]
  have hst : (Emit opts st0 d1 cn1).2.lastIncludeLoc = some d1.loc.includeStack := hkey1
  refine ⟨hst, ?_, ?_⟩
  · intro hsame cn2
    have hinc : emitIncludeStack (Emit opts st0 d1 cn1).2 d2.loc cn2 = [] := by
      unfold emitIncludeStack
      cases cn2 with
      | true => simp
      | false => simp [hkey2, hst, hsame]
    have hdec : (Emit opts (Emit opts st0 d1 cn1).2 d2 cn2).1
        = emitIncludeStack (Emit opts st0 d1 cn1).2 d2.loc cn2
            ++ emitMainItems opts d2 := rfl
    rw [hdec, hinc, List.nil_append]
    exact List.countP_eq_zero.mpr fun x hx => by
      simp [mem_emitMainItems_not_include opts d2 x hx]
  · intro hdiff
    have hne : ¬((Emit opts st0 d1 cn1).2.lastIncludeLoc
        = some d2.loc.includeStack) := by
      rw [hst]
      intro hcon
      exact hdiff (Option.some.inj hcon).symm
    have hinc : emitIncludeStack (Emit opts st0 d1 cn1).2 d2.loc false
        = d2.loc.includeStack.map OutItem.includeLine := by
      simp [emitIncludeStack, hkey2, hne]
    have hdec : (Emit opts (Emit opts st0 d1 cn1).2 d2 false).1
        = emitIncludeStack (Emit opts st0 d1 cn1).2 d2.loc false
            ++ emitMainItems opts d2 := rfl
    rw [hdec, List.filter_append, hinc, filter_includeLine_map,
      filter_includeLine_emitMainItems, List.append_nil]

/-- Witness for the amended claim C4: a same-root pair of calls (second call
emits zero include lines) and a different-root pair (second call prints its
full chain). -/
theorem emit_include_suppression_witness :
    (Emit sampleOpts initState sampleDiagA false).2.lastIncludeLoc
        = some sampleDiagA.loc.includeStack
    ∧ ((Emit sampleOpts (Emit sampleOpts initState sampleDiagA false).2
        sampleDiagA2 false).1).countP isIncludeLine = 0
    ∧ ((Emit sampleOpts (Emit sampleOpts initState sampleDiagA false).2
        sampleDiagB false).1).filter isIncludeLine
          = sampleDiagB.loc.includeStack.map OutItem.includeLine := by
  have hA := emit_include_suppression sampleOpts initState sampleDiagA sampleDiagA2
    false ⟨1, 2, 3⟩ ⟨1, 2, 3⟩ rfl rfl
  have hB := emit_include_suppression sampleOpts initState sampleDiagA sampleDiagB
    false ⟨1, 2, 3⟩ ⟨2, 5, 1⟩ rfl rfl
  exact ⟨hA.1, hA.2.1 rfl false, hB.2.2 (by decide)⟩

/-- Claim C10: a renderer constructed with the default last-state arguments
starts with invalid (none) LastLoc and LastIncludeLoc; on the first Emit call
the previous-include-root comparison therefore can never match, and the first
diagnostic's include stack is printed in full, never suppressed as already
reported. -/
theorem initState_first_emit_full_include (opts : DiagOpts) (d : Diag)
    (p : LogicalPos) (hres : d.loc.resolved = some p) :
    initState.lastLoc = none
    ∧ initState.lastIncludeLoc = none
    ∧ initState.lastIncludeLoc ≠ includeKey d.loc
    ∧ (Emit opts initState d false).1.filter isIncludeLine
        = d.loc.includeStack.map OutItem.includeLine := by
  have hkey : includeKey d.loc = some d.loc.includeStack := by
    unfold includeKey
    rw [hres]
  refine ⟨rfl, rfl, ?_, ?_⟩
  · rw [hkey]
    simp [initState]
  · have hne : ¬(initState.lastIncludeLoc = some d.loc.includeStack) := by
      simp [initState]
    have hinc : emitIncludeStack initState d.loc false
        = d.loc.includeStack.map OutItem.includeLine := by
      simp [emitIncludeStack, hkey, hne]
    have hdec : (Emit opts initState d false).1
        = emitIncludeStack initState d.loc false ++ emitMainItems opts d := rfl
    rw [hdec, List.filter_append, hinc, filter_includeLine_map,
      filter_includeLine_emitMainItems, List.append_nil]

/-- Witness for C10: the first diagnostic after construction, at a resolvable
location included from one frame. -/
theorem initState_first_emit_full_include_witness :
    initState.lastLoc = none
    ∧ initState.lastIncludeLoc = none
    ∧ initState.lastIncludeLoc ≠ includeKey sampleDiagA.loc
    ∧ (Emit sampleOpts initState sampleDiagA false).1.filter isIncludeLine
        = sampleDiagA.loc.includeStack.map OutItem.includeLine :=
  initState_first_emit_full_include sampleOpts sampleDiagA ⟨1, 2, 3⟩ rfl
